import Mathlib

/-!
# Verification of the GamePlay camera matrix cache and encoder object writer

This file shallowly embeds the scene-camera component of the GamePlay
repository (`gameplay/src/Camera.h`) and the binary object writer of the
encoder (`gameplay-encoder/src/Object.h`), and proves the specified
properties about them.

The repository ships `Camera.h` as a pure declaration file (the class
interface and its fields, `Camera.h` lines 262-275); the method bodies
live in a `Camera.cpp` that is not part of the source tree.  Every
definition for the camera whose doc comment starts with `Modelled from
the spec:` therefore models the missing body from the specification's
recomputation algorithm (spec sections 3, 4, 7), while the `Camera`
state itself mirrors the field list declared in `Camera.h`.

Machine floats are modelled by exact rationals, so every "within
floating-point tolerance" clause of the spec is established as an exact
equality, which implies it for every positive tolerance.  The two
transcendental routines the camera consumes from the math library
(tangent, used by the perspective projection, and square root, used by
plane/vector normalization) are taken as explicit functional parameters
`tanq` and `sqrtq` of the model: every theorem holds for an arbitrary
choice of those routines.
-/

namespace GamePlaySpec

/-- 4x4 float matrix of the math value types (`Matrix` in gameplay),
modelled with exact rational entries. -/
abbrev Mat4 := Matrix (Fin 4) (Fin 4) ℚ

/-- Homogeneous 4-component vector. -/
abbrev Vec4 := Fin 4 → ℚ

instance : DecidableEq Mat4 :=
  inferInstanceAs (DecidableEq (Fin 4 → Fin 4 → ℚ))

/-- 3-component float vector (`Vector3` in gameplay). -/
structure Vec3 where
  x : ℚ
  y : ℚ
  z : ℚ
deriving DecidableEq

/-- Componentwise difference of two `Vector3` values. -/
def Vec3.sub (a b : Vec3) : Vec3 :=
  ⟨a.x - b.x, a.y - b.y, a.z - b.z⟩

/-- `Vector3::normalize`: scale by the reciprocal of the length.  The
square-root routine of the math library is the parameter `sqrtq`. -/
def Vec3.normalizeWith (sqrtq : ℚ → ℚ) (v : Vec3) : Vec3 :=
  let n := sqrtq (v.x * v.x + v.y * v.y + v.z * v.z)
  ⟨v.x / n, v.y / n, v.z / n⟩

/-- A picking ray (`Ray` in gameplay): an origin and a direction. -/
structure Ray where
  origin : Vec3
  direction : Vec3
deriving DecidableEq

/-- An axis-aligned pixel rectangle (`Viewport` in gameplay): stateless
value type used only as an input parameter to coordinate mapping. -/
structure Viewport where
  x : ℚ
  y : ℚ
  width : ℚ
  height : ℚ
deriving DecidableEq

/-- A clip plane, stored as the 4 coefficients `(a, b, c, d)` of
`a·x + b·y + c·z + d = 0`. -/
abbrev Plane := Vec4

/-- Six-plane bounding volume (`Frustum` in gameplay), a pure derived
value computed from a view-projection matrix. -/
structure Frustum where
  near : Plane
  far : Plane
  left : Plane
  right : Plane
  top : Plane
  bottom : Plane
deriving DecidableEq

/-- The camera type enum of `Camera.h` (lines 30-34). -/
inductive CameraType where
  | perspective
  | orthographic
deriving DecidableEq

/-- The dirty-bit mask `_dirtyBits` of `Camera.h` (line 274): one bit
per cached derived value. -/
structure DirtyBits where
  view : Bool
  projection : Bool
  viewProjection : Bool
  inverseView : Bool
  inverseViewProjection : Bool
  frustum : Bool
deriving DecidableEq

/-- The dirty-bit mask with every bit set, the state of a freshly
constructed camera. -/
def DirtyBits.all : DirtyBits :=
  ⟨true, true, true, true, true, true⟩

/-- Recompute counters, one per cached derived value.  Modelled from the
spec: section 8 requires the recomputations to be "observable via an
injected recompute counter"; the counters are instrumentation carried
alongside the camera state, not a field of the C++ class. -/
structure Counts where
  view : ℕ
  projection : ℕ
  viewProjection : ℕ
  inverseView : ℕ
  inverseViewProjection : ℕ
  frustum : ℕ
deriving DecidableEq

/-- The all-zero recompute counters. -/
def Counts.zero : Counts := ⟨0, 0, 0, 0, 0, 0⟩

/-- The camera state: exactly the fields declared in `Camera.h` lines
262-275.  `_zoom[2]` is split into its two entries, and the back
reference `_node` is modelled as the attached node's current world
transform (`none` when the camera is not attached), which is the only
datum the camera reads from the node. -/
structure Camera where
  type : CameraType
  fieldOfView : ℚ
  zoomX : ℚ
  zoomY : ℚ
  aspectRatio : ℚ
  nearPlane : ℚ
  farPlane : ℚ
  view : Mat4
  projection : Mat4
  viewProjection : Mat4
  inverseView : Mat4
  inverseViewProjection : Mat4
  bounds : Frustum
  dirtyBits : DirtyBits
  node : Option Mat4
deriving DecidableEq

/-- A camera together with its injected recompute counters. -/
abbrev CamK := Camera × Counts

/-- Modelled from the spec: matrix inversion of the math value types
with the singular fallback of section 7 — when the matrix is not
invertible the inversion "returns the identity matrix", never NaN/Inf
entries (`ℚ` has neither). -/
def invertOrIdentity (m : Mat4) : Mat4 :=
  if m.det = 0 then 1 else m.det⁻¹ • m.adjugate

/-- Modelled from the spec: the view matrix recomputed in step 1 of the
section 4.1 algorithm — `view = invert(node->worldTransform())`,
identity if no node. -/
def viewOfNode : Option Mat4 → Mat4
  | none => 1
  | some w => invertOrIdentity w

/-- Modelled from the spec: the perspective projection matrix of
section 4.1 step 2 built from the vertical focal scale
`f = 1 / tan(fieldOfView/2)`, the aspect ratio and the near/far planes,
with the usual right-handed clip-space convention. -/
def perspM (f aspect near far : ℚ) : Mat4 :=
  Matrix.of
    ![![f / aspect, 0, 0, 0],
      ![0, f, 0, 0],
      ![0, 0, (far + near) / (near - far), 2 * far * near / (near - far)],
      ![0, 0, -1, 0]]

/-- Modelled from the spec: the orthographic projection matrix of
section 4.1 step 2 — the bounds
`[-zoomX·aspect/2, zoomX·aspect/2] × [-zoomY/2, zoomY/2]` mapped
linearly to clip space, depth term from near/far. -/
def orthoM (zoomX zoomY aspect near far : ℚ) : Mat4 :=
  Matrix.of
    ![![2 / (zoomX * aspect), 0, 0, 0],
      ![0, 2 / zoomY, 0, 0],
      ![0, 0, 2 / (near - far), (near + far) / (near - far)],
      ![0, 0, 0, 1]]

/-- Modelled from the spec: the projection matrix recomputed by type in
step 2 of the section 4.1 algorithm.  `tanq` is the tangent routine of
the math library, taking the half field-of-view angle in degrees. -/
def projectionOfParams (tanq : ℚ → ℚ) (c : Camera) : Mat4 :=
  match c.type with
  | .perspective =>
      perspM (1 / tanq (c.fieldOfView / 2)) c.aspectRatio c.nearPlane c.farPlane
  | .orthographic =>
      orthoM c.zoomX c.zoomY c.aspectRatio c.nearPlane c.farPlane

/-- Normalization of a clip plane by the length of its normal
`(a, b, c)`; `sqrtq` is the square-root routine of the math library. -/
def normalizePlane (sqrtq : ℚ → ℚ) (p : Plane) : Plane :=
  let n := sqrtq (p 0 * p 0 + p 1 * p 1 + p 2 * p 2)
  fun i => p i / n

/-- Modelled from the spec: section 4.2 — extract the six clip planes
from the rows of the view-projection matrix by the standard
row-combination plane-extraction technique and normalize each plane. -/
def extractFrustum (sqrtq : ℚ → ℚ) (m : Mat4) : Frustum :=
  let row : Fin 4 → Vec4 := fun i j => m i j
  { near := normalizePlane sqrtq (row 3 + row 2)
    far := normalizePlane sqrtq (row 3 - row 2)
    left := normalizePlane sqrtq (row 3 + row 0)
    right := normalizePlane sqrtq (row 3 - row 0)
    top := normalizePlane sqrtq (row 3 - row 1)
    bottom := normalizePlane sqrtq (row 3 + row 1) }

/-- The all-zero initial frustum cache of a fresh camera (its bit starts
dirty, so it is recomputed before any read). -/
def Frustum.init : Frustum :=
  ⟨fun _ => 0, fun _ => 0, fun _ => 0, fun _ => 0, fun _ => 0, fun _ => 0⟩

/-! ## Refresh steps and accessors

Modelled from the spec, section 4.1: each accessor checks the relevant
dirty bit, recomputes the value (and transitively refreshes the values
it depends on) if the bit is set, then clears the bit; each accessor
triggers only the steps its return value depends on.  Each refresh step
bumps that value's injected recompute counter exactly when it actually
recomputes. -/

/-- Modelled from the spec: step 1 — if `view` is dirty, recompute
`view = invert(node->worldTransform())` (identity if no node) and clear
the bit. -/
def refreshView (cc : CamK) : CamK :=
  if cc.1.dirtyBits.view then
    ({ cc.1 with
        view := viewOfNode cc.1.node
        dirtyBits := { cc.1.dirtyBits with view := false } },
     { cc.2 with view := cc.2.view + 1 })
  else cc

/-- Modelled from the spec: step 2 — if `projection` is dirty, recompute
it by camera type and clear the bit. -/
def refreshProjection (tanq : ℚ → ℚ) (cc : CamK) : CamK :=
  if cc.1.dirtyBits.projection then
    ({ cc.1 with
        projection := projectionOfParams tanq cc.1
        dirtyBits := { cc.1.dirtyBits with projection := false } },
     { cc.2 with projection := cc.2.projection + 1 })
  else cc

/-- Modelled from the spec: step 3 alone — if `viewProjection` is dirty,
recompute `viewProjection = projection ⋅ view` and clear the bit. -/
def refreshVPStep (cc : CamK) : CamK :=
  if cc.1.dirtyBits.viewProjection then
    ({ cc.1 with
        viewProjection := cc.1.projection * cc.1.view
        dirtyBits := { cc.1.dirtyBits with viewProjection := false } },
     { cc.2 with viewProjection := cc.2.viewProjection + 1 })
  else cc

/-- Modelled from the spec: steps 1-3 in dependency order, the refresh
performed by the view-projection accessor. -/
def refreshViewProjection (tanq : ℚ → ℚ) (cc : CamK) : CamK :=
  refreshVPStep (refreshProjection tanq (refreshView cc))

/-- Modelled from the spec: step 4 alone — if `inverseView` is dirty,
recompute `inverseView = invert(view)` and clear the bit. -/
def refreshInvViewStep (cc : CamK) : CamK :=
  if cc.1.dirtyBits.inverseView then
    ({ cc.1 with
        inverseView := invertOrIdentity cc.1.view
        dirtyBits := { cc.1.dirtyBits with inverseView := false } },
     { cc.2 with inverseView := cc.2.inverseView + 1 })
  else cc

/-- Modelled from the spec: step 5 alone — if `inverseViewProjection` is
dirty, recompute `inverseViewProjection = invert(viewProjection)` and
clear the bit. -/
def refreshInvVPStep (cc : CamK) : CamK :=
  if cc.1.dirtyBits.inverseViewProjection then
    ({ cc.1 with
        inverseViewProjection := invertOrIdentity cc.1.viewProjection
        dirtyBits := { cc.1.dirtyBits with inverseViewProjection := false } },
     { cc.2 with inverseViewProjection := cc.2.inverseViewProjection + 1 })
  else cc

/-- Modelled from the spec: the frustum refresh of section 4.2 — ensure
`viewProjection` is current, then if the frustum bit is dirty extract
and normalize the six planes, cache them and clear the bit. -/
def refreshFrustum (tanq sqrtq : ℚ → ℚ) (cc : CamK) : CamK :=
  let cc1 := refreshViewProjection tanq cc
  if cc1.1.dirtyBits.frustum then
    ({ cc1.1 with
        bounds := extractFrustum sqrtq cc1.1.viewProjection
        dirtyBits := { cc1.1.dirtyBits with frustum := false } },
     { cc1.2 with frustum := cc1.2.frustum + 1 })
  else cc1

/-- Modelled from the spec: `getViewMatrix` (declared `Camera.h` line
163) triggers only step 1, then returns the cached view matrix. -/
def getViewMatrix (cc : CamK) : Mat4 × CamK :=
  let cc1 := refreshView cc
  (cc1.1.view, cc1)

/-- Modelled from the spec: `getProjectionMatrix` (declared `Camera.h`
line 177) triggers only step 2, then returns the cached projection. -/
def getProjectionMatrix (tanq : ℚ → ℚ) (cc : CamK) : Mat4 × CamK :=
  let cc1 := refreshProjection tanq cc
  (cc1.1.projection, cc1)

/-- Modelled from the spec: `getViewProjectionMatrix` (declared
`Camera.h` line 184) triggers steps 1-3, then returns the cached
view-projection matrix. -/
def getViewProjectionMatrix (tanq : ℚ → ℚ) (cc : CamK) : Mat4 × CamK :=
  let cc1 := refreshViewProjection tanq cc
  (cc1.1.viewProjection, cc1)

/-- Modelled from the spec: `getInverseViewMatrix` (declared `Camera.h`
line 170) triggers steps 1 and 4, then returns the cached inverse
view matrix. -/
def getInverseViewMatrix (cc : CamK) : Mat4 × CamK :=
  let cc1 := refreshInvViewStep (refreshView cc)
  (cc1.1.inverseView, cc1)

/-- Modelled from the spec: `getInverseViewProjectionMatrix` (declared
`Camera.h` line 191) triggers steps 1-3 and 5, then returns the cached
inverse view-projection matrix. -/
def getInverseViewProjectionMatrix (tanq : ℚ → ℚ) (cc : CamK) : Mat4 × CamK :=
  let cc1 := refreshInvVPStep (refreshViewProjection tanq cc)
  (cc1.1.inverseViewProjection, cc1)

/-- Modelled from the spec: `getFrustum` (declared `Camera.h` line 198)
refreshes the frustum as in section 4.2 and returns it. -/
def getFrustum (tanq sqrtq : ℚ → ℚ) (cc : CamK) : Frustum × CamK :=
  let cc1 := refreshFrustum tanq sqrtq cc
  (cc1.1.bounds, cc1)

/-! ## Mutators -/

/-- Modelled from the spec: the effect of the node's transform-change
notification (`transformChanged`, declared `Camera.h` line 255) — set
the dirty bits for view, viewProjection, inverseView,
inverseViewProjection and frustum; the projection bit and all caches
are untouched. -/
def transformChanged (c : Camera) : Camera :=
  { c with
      dirtyBits :=
        { c.dirtyBits with
            view := true
            viewProjection := true
            inverseView := true
            inverseViewProjection := true
            frustum := true } }

/-- The error outcome of a rejected parameter mutation.  Modelled from
the spec: section 7 — an invalid parameter is signalled "via an
error/result outcome to the caller, never by throwing". -/
inductive ParamError where
  | invalidParameter
deriving DecidableEq

/-- The result of a parameter setter: the outcome together with the
resulting camera state (unchanged when the mutation is rejected). -/
abbrev SetResult := Except ParamError Unit × Camera

/-- Modelled from the spec: the dirty bits a successful
projection-parameter setter sets — projection, viewProjection,
inverseViewProjection and frustum; view and inverseView are
untouched (section 4.1). -/
def setProjectionDirty (d : DirtyBits) : DirtyBits :=
  { d with
      projection := true
      viewProjection := true
      inverseViewProjection := true
      frustum := true }

/-- Modelled from the spec: `setFieldOfView` (declared `Camera.h` line
76) — reject `fieldOfView ≤ 0` or `≥ 180` degrees (section 7), else
store it and set the projection-family dirty bits. -/
def setFieldOfView (c : Camera) (v : ℚ) : SetResult :=
  if v ≤ 0 ∨ 180 ≤ v then (.error .invalidParameter, c)
  else (.ok (),
    { c with fieldOfView := v, dirtyBits := setProjectionDirty c.dirtyBits })

/-- Modelled from the spec: `setZoomX` (declared `Camera.h` line 92) —
reject `zoom ≤ 0` (section 7), else store it and set the
projection-family dirty bits. -/
def setZoomX (c : Camera) (v : ℚ) : SetResult :=
  if v ≤ 0 then (.error .invalidParameter, c)
  else (.ok (),
    { c with zoomX := v, dirtyBits := setProjectionDirty c.dirtyBits })

/-- Modelled from the spec: `setZoomY` (declared `Camera.h` line 107) —
reject `zoom ≤ 0` (section 7), else store it and set the
projection-family dirty bits. -/
def setZoomY (c : Camera) (v : ℚ) : SetResult :=
  if v ≤ 0 then (.error .invalidParameter, c)
  else (.ok (),
    { c with zoomY := v, dirtyBits := setProjectionDirty c.dirtyBits })

/-- Modelled from the spec: `setAspectRatio` (declared `Camera.h` line
121) — reject `aspectRatio ≤ 0` (section 7), else store it and set the
projection-family dirty bits. -/
def setAspectRatio (c : Camera) (v : ℚ) : SetResult :=
  if v ≤ 0 then (.error .invalidParameter, c)
  else (.ok (),
    { c with aspectRatio := v, dirtyBits := setProjectionDirty c.dirtyBits })

/-- Modelled from the spec: `setNearPlane` (declared `Camera.h` line
135) — reject a value violating `0 < nearPlane < farPlane` (sections 3
and 7, in particular `nearPlane ≥ farPlane` is invalid), else store it
and set the projection-family dirty bits. -/
def setNearPlane (c : Camera) (v : ℚ) : SetResult :=
  if v ≤ 0 ∨ c.farPlane ≤ v then (.error .invalidParameter, c)
  else (.ok (),
    { c with nearPlane := v, dirtyBits := setProjectionDirty c.dirtyBits })

/-- Modelled from the spec: `setFarPlane` (declared `Camera.h` line
149) — reject a value violating `nearPlane < farPlane` (sections 3 and
7), else store it and set the projection-family dirty bits. -/
def setFarPlane (c : Camera) (v : ℚ) : SetResult :=
  if v ≤ c.nearPlane then (.error .invalidParameter, c)
  else (.ok (),
    { c with farPlane := v, dirtyBits := setProjectionDirty c.dirtyBits })

/-- Modelled from the spec: `setNode` (declared `Camera.h` line 260) —
attach or detach the positioning node and mark the view-dependent bits
dirty (section 4.1). -/
def setNode (c : Camera) (n : Option Mat4) : Camera :=
  { c with
      node := n
      dirtyBits :=
        { c.dirtyBits with
            view := true
            viewProjection := true
            inverseView := true
            inverseViewProjection := true
            frustum := true } }

/-- Modelled from the spec: `createPerspective` (declared `Camera.h`
line 44) — a fresh perspective camera with all dirty bits set (section
6); the matrix caches start at the identity (the `Matrix` default) and
the camera is not yet attached to a node. -/
def createPerspective (fieldOfView aspectRatio nearPlane farPlane : ℚ) : Camera :=
  { type := .perspective
    fieldOfView := fieldOfView
    zoomX := 1
    zoomY := 1
    aspectRatio := aspectRatio
    nearPlane := nearPlane
    farPlane := farPlane
    view := 1
    projection := 1
    viewProjection := 1
    inverseView := 1
    inverseViewProjection := 1
    bounds := Frustum.init
    dirtyBits := DirtyBits.all
    node := none }

/-- Modelled from the spec: `createOrthographic` (declared `Camera.h`
line 55) — a fresh orthographic camera with all dirty bits set. -/
def createOrthographic (zoomX zoomY aspectRatio nearPlane farPlane : ℚ) : Camera :=
  { type := .orthographic
    fieldOfView := 0
    zoomX := zoomX
    zoomY := zoomY
    aspectRatio := aspectRatio
    nearPlane := nearPlane
    farPlane := farPlane
    view := 1
    projection := 1
    viewProjection := 1
    inverseView := 1
    inverseViewProjection := 1
    bounds := Frustum.init
    dirtyBits := DirtyBits.all
    node := none }

/-! ## Coordinate mapping -/

/-- A world point as a homogeneous column with `w = 1`. -/
def homog (p : Vec3) : Vec4 :=
  ![p.x, p.y, p.z, 1]

/-- Modelled from the spec: the numeric core of `project` (section 4.3)
— transform the homogeneous world position by the view-projection
matrix `m`, perform the perspective divide, map NDC `[-1,1]²` to the
viewport's pixel rectangle with the y axis flipped to top-left-origin
pixel space, and map device depth to `[0,1]`. -/
def projectPoint (m : Mat4) (vp : Viewport) (p : Vec3) : ℚ × ℚ × ℚ :=
  let q := m.mulVec (homog p)
  let ndcx := q 0 / q 3
  let ndcy := q 1 / q 3
  let ndcz := q 2 / q 3
  (vp.x + (ndcx + 1) / 2 * vp.width,
   vp.y + (1 - (ndcy + 1) / 2) * vp.height,
   (ndcz + 1) / 2)

/-- Modelled from the spec: the numeric core of `unproject` (section
4.3) — map pixel coordinates and depth back to NDC, then through the
inverse view-projection matrix `mi`, and perform the perspective divide
to recover the world point. -/
def unprojectPoint (mi : Mat4) (vp : Viewport) (x y depth : ℚ) : Vec3 :=
  let ndcx := 2 * (x - vp.x) / vp.width - 1
  let ndcy := 1 - 2 * (y - vp.y) / vp.height
  let ndcz := 2 * depth - 1
  let w := mi.mulVec ![ndcx, ndcy, ndcz, 1]
  ⟨w 0 / w 3, w 1 / w 3, w 2 / w 3⟩

/-- Modelled from the spec: `project` (declared `Camera.h` line 209) —
refresh the view-projection matrix, then apply the numeric projection
to the world position, returning the pixel coordinates and depth. -/
def project (tanq : ℚ → ℚ) (vp : Viewport) (cc : CamK) (p : Vec3) :
    (ℚ × ℚ × ℚ) × CamK :=
  let cc1 := refreshViewProjection tanq cc
  (projectPoint cc1.1.viewProjection vp p, cc1)

/-- Modelled from the spec: `unproject` (declared `Camera.h` line 223)
— refresh the inverse view-projection matrix, then apply the numeric
unprojection to the pixel coordinates and depth. -/
def unproject (tanq : ℚ → ℚ) (vp : Viewport) (cc : CamK) (x y depth : ℚ) :
    Vec3 × CamK :=
  let cc1 := refreshInvVPStep (refreshViewProjection tanq cc)
  (unprojectPoint cc1.1.inverseViewProjection vp x y depth, cc1)

/-- Modelled from the spec: `pickRay` (declared `Camera.h` line 233) —
unproject the pixel at depth 0 and at depth 1; the ray origin is the
near point and the direction the normalized difference. -/
def pickRay (tanq sqrtq : ℚ → ℚ) (vp : Viewport) (cc : CamK) (x y : ℚ) :
    Ray × CamK :=
  let np := unproject tanq vp cc x y 0
  let fp := unproject tanq vp np.2 x y 1
  ({ origin := np.1
     direction := Vec3.normalizeWith sqrtq (Vec3.sub fp.1 np.1) }, fp.2)

/-! ## Parameter validity and cache coherence -/

/-- The parameter invariants of spec section 3: positive aspect ratio,
`0 < nearPlane < farPlane`, a field of view strictly between 0 and 180
degrees and positive zoom factors. -/
def ValidParams (c : Camera) : Prop :=
  0 < c.aspectRatio ∧ 0 < c.nearPlane ∧ c.nearPlane < c.farPlane ∧
    0 < c.fieldOfView ∧ c.fieldOfView < 180 ∧ 0 < c.zoomX ∧ 0 < c.zoomY

instance (c : Camera) : Decidable (ValidParams c) := by
  unfold ValidParams; infer_instance

/-- The cache-coherence invariant of spec section 3: a cached value's
dirty bit is clear only if the cache holds the value recomputed from
its (also current) inputs — "accessors never return a stale value
marked valid".  Every reachable camera state satisfies it, and a fresh
camera satisfies it vacuously since all its bits are dirty. -/
def CacheCoherent (tanq sqrtq : ℚ → ℚ) (c : Camera) : Prop :=
  (c.dirtyBits.view = false → c.view = viewOfNode c.node) ∧
  (c.dirtyBits.projection = false → c.projection = projectionOfParams tanq c) ∧
  (c.dirtyBits.viewProjection = false →
    c.dirtyBits.view = false ∧ c.dirtyBits.projection = false ∧
      c.viewProjection = c.projection * c.view) ∧
  (c.dirtyBits.inverseView = false →
    c.dirtyBits.view = false ∧ c.inverseView = invertOrIdentity c.view) ∧
  (c.dirtyBits.inverseViewProjection = false →
    c.dirtyBits.viewProjection = false ∧
      c.inverseViewProjection = invertOrIdentity c.viewProjection) ∧
  (c.dirtyBits.frustum = false →
    c.dirtyBits.viewProjection = false ∧
      c.bounds = extractFrustum sqrtq c.viewProjection)

instance (tanq sqrtq : ℚ → ℚ) (c : Camera) :
    Decidable (CacheCoherent tanq sqrtq c) := by
  unfold CacheCoherent; infer_instance

/-! ## The encoder's binary object writer

`gameplay-encoder/src/Object.h` lines 100-130 are present in the source
tree; the two `writeBinaryObjects` templates are translated here.  A
binary `FILE` stream is modelled as the list of bytes written so far;
`write(size, file)` of the included `FileIO.h` (not in the source tree)
is an arbitrary size encoder `writeSize`, and the virtual
`writeBinary` of an element is an arbitrary serializer `wb`. -/

/-- `Object::writeBinaryObjects(std::list<T>, FILE*)` (`Object.h` lines
103-114): first write the size of the list, then write each element in
iteration order. -/
def writeBinaryObjectsList {α : Type} (writeSize : ℕ → List ℕ)
    (wb : α → List ℕ) (objs : List α) (file : List ℕ) : List ℕ :=
  let file1 := file ++ writeSize objs.length
  objs.foldl (fun f o => f ++ wb o) file1

/-- `Object::writeBinaryObjects(std::vector<T>, FILE*)` (`Object.h`
lines 119-130): first write the size of the vector, then write each
element in iteration order. -/
def writeBinaryObjectsVector {α : Type} (writeSize : ℕ → List ℕ)
    (wb : α → List ℕ) (objs : List α) (file : List ℕ) : List ℕ :=
  let file1 := file ++ writeSize objs.length
  objs.foldl (fun f o => f ++ wb o) file1

/-! ## Helper lemmas about inversion -/

/-- On an invertible input, `invertOrIdentity` agrees with the
mathematical matrix inverse. -/
theorem invertOrIdentity_of_det_ne_zero (m : Mat4) (h : m.det ≠ 0) :
    invertOrIdentity m = m⁻¹ := by
  rw [invertOrIdentity, if_neg h, Matrix.inv_def, Ring.inverse_eq_inv']

/-- `invertOrIdentity` of an invertible matrix is a two-sided inverse. -/
theorem invertOrIdentity_mul (m : Mat4) (h : m.det ≠ 0) :
    invertOrIdentity m * m = 1 ∧ m * invertOrIdentity m = 1 := by
  rw [invertOrIdentity_of_det_ne_zero m h]
  exact ⟨Matrix.nonsing_inv_mul m (isUnit_iff_ne_zero.mpr h),
    Matrix.mul_nonsing_inv m (isUnit_iff_ne_zero.mpr h)⟩

/-- `invertOrIdentity` of the identity is the identity. -/
theorem invertOrIdentity_one : invertOrIdentity (1 : Mat4) = 1 := by
  simp [invertOrIdentity, Matrix.adjugate_one]

/-- If a matrix has an explicit right inverse, `invertOrIdentity`
returns it. -/
theorem invertOrIdentity_eq_of_mul_eq_one (m n : Mat4) (h : m * n = 1) :
    invertOrIdentity m = n := by
  have hd : m.det ≠ 0 := by
    intro h0
    have hmn := Matrix.det_mul m n
    rw [h, Matrix.det_one, h0, zero_mul] at hmn
    exact one_ne_zero hmn
  rw [invertOrIdentity_of_det_ne_zero m hd, Matrix.inv_eq_right_inv h]

/-! ## Helper lemmas about the refresh steps -/

/-- A refresh step whose bit is clear is a no-op. -/
theorem refreshView_clean (cc : CamK) (h : cc.1.dirtyBits.view = false) :
    refreshView cc = cc := by
  simp [refreshView, h]

/-- A refresh step whose bit is clear is a no-op. -/
theorem refreshProjection_clean (tanq : ℚ → ℚ) (cc : CamK)
    (h : cc.1.dirtyBits.projection = false) :
    refreshProjection tanq cc = cc := by
  simp [refreshProjection, h]

/-- A refresh step whose bit is clear is a no-op. -/
theorem refreshVPStep_clean (cc : CamK) (h : cc.1.dirtyBits.viewProjection = false) :
    refreshVPStep cc = cc := by
  simp [refreshVPStep, h]

/-- A refresh step whose bit is clear is a no-op. -/
theorem refreshInvViewStep_clean (cc : CamK) (h : cc.1.dirtyBits.inverseView = false) :
    refreshInvViewStep cc = cc := by
  simp [refreshInvViewStep, h]

/-- A refresh step whose bit is clear is a no-op. -/
theorem refreshInvVPStep_clean (cc : CamK) (h : cc.1.dirtyBits.inverseViewProjection = false) :
    refreshInvVPStep cc = cc := by
  simp [refreshInvVPStep, h]

/-- After step 1 the view bit is clear. -/
theorem refreshView_bit (cc : CamK) : (refreshView cc).1.dirtyBits.view = false := by
  by_cases h : cc.1.dirtyBits.view <;> simp [refreshView, h]

/-- After step 2 the projection bit is clear. -/
theorem refreshProjection_bit (tanq : ℚ → ℚ) (cc : CamK) :
    (refreshProjection tanq cc).1.dirtyBits.projection = false := by
  by_cases h : cc.1.dirtyBits.projection <;> simp [refreshProjection, h]

/-- After step 3 the view-projection bit is clear. -/
theorem refreshVPStep_bit (cc : CamK) :
    (refreshVPStep cc).1.dirtyBits.viewProjection = false := by
  by_cases h : cc.1.dirtyBits.viewProjection <;> simp [refreshVPStep, h]

/-- Step 2 does not touch the view bit. -/
theorem refreshProjection_view_bit (tanq : ℚ → ℚ) (cc : CamK) :
    (refreshProjection tanq cc).1.dirtyBits.view = cc.1.dirtyBits.view := by
  by_cases h : cc.1.dirtyBits.projection <;> simp [refreshProjection, h]

/-- Step 3 does not touch the view bit. -/
theorem refreshVPStep_view_bit (cc : CamK) :
    (refreshVPStep cc).1.dirtyBits.view = cc.1.dirtyBits.view := by
  by_cases h : cc.1.dirtyBits.viewProjection <;> simp [refreshVPStep, h]

/-- Step 1 does not touch the projection bit. -/
theorem refreshView_projection_bit (cc : CamK) :
    (refreshView cc).1.dirtyBits.projection = cc.1.dirtyBits.projection := by
  by_cases h : cc.1.dirtyBits.view <;> simp [refreshView, h]

/-- Step 3 does not touch the projection bit. -/
theorem refreshVPStep_projection_bit (cc : CamK) :
    (refreshVPStep cc).1.dirtyBits.projection = cc.1.dirtyBits.projection := by
  by_cases h : cc.1.dirtyBits.viewProjection <;> simp [refreshVPStep, h]

/-- After steps 1-3 the view, projection and view-projection bits are
all clear. -/
theorem refreshViewProjection_bits (tanq : ℚ → ℚ) (cc : CamK) :
    (refreshViewProjection tanq cc).1.dirtyBits.view = false ∧
      (refreshViewProjection tanq cc).1.dirtyBits.projection = false ∧
      (refreshViewProjection tanq cc).1.dirtyBits.viewProjection = false := by
  refine ⟨?_, ?_, ?_⟩
  · rw [refreshViewProjection, refreshVPStep_view_bit, refreshProjection_view_bit,
      refreshView_bit]
  · rw [refreshViewProjection, refreshVPStep_projection_bit, refreshProjection_bit]
  · rw [refreshViewProjection, refreshVPStep_bit]

/-- A steps-1-3 refresh on a state with the view, projection and
view-projection bits clear is a no-op. -/
theorem refreshViewProjection_clean (tanq : ℚ → ℚ) (cc : CamK)
    (h1 : cc.1.dirtyBits.view = false) (h2 : cc.1.dirtyBits.projection = false)
    (h3 : cc.1.dirtyBits.viewProjection = false) :
    refreshViewProjection tanq cc = cc := by
  rw [refreshViewProjection, refreshView_clean cc h1, refreshProjection_clean tanq cc h2,
    refreshVPStep_clean cc h3]

/-- Steps 1-3 are idempotent. -/
theorem refreshViewProjection_idem (tanq : ℚ → ℚ) (cc : CamK) :
    refreshViewProjection tanq (refreshViewProjection tanq cc) =
      refreshViewProjection tanq cc := by
  obtain ⟨h1, h2, h3⟩ := refreshViewProjection_bits tanq cc
  exact refreshViewProjection_clean tanq _ h1 h2 h3

/-! ## C10 — the encoder's object writer -/

/-- Folding the element writer over a stream prefix appends exactly the
elements' serializations in order. -/
theorem foldl_write_eq {α : Type} (wb : α → List ℕ) :
    ∀ (objs : List α) (f : List ℕ),
      objs.foldl (fun acc o => acc ++ wb o) f = f ++ (objs.map wb).flatten := by
  intro objs
  induction objs with
  | nil => intro f; simp
  | cons o rest ih => intro f; simp [ih, List.append_assoc]

/-- C10: for every list or vector of objects and every file stream,
`Object::writeBinaryObjects` first writes the container's element count
to the stream and then calls `writeBinary` on each element in container
iteration order, so the stream receives the count followed by exactly
the elements' serializations in order. -/
theorem writeBinaryObjects_count_then_elements {α : Type} (writeSize : ℕ → List ℕ)
    (wb : α → List ℕ) (objs : List α) (file : List ℕ) :
    writeBinaryObjectsList writeSize wb objs file
        = file ++ writeSize objs.length ++ (objs.map wb).flatten ∧
      writeBinaryObjectsVector writeSize wb objs file
        = file ++ writeSize objs.length ++ (objs.map wb).flatten := by
  constructor <;>
    simp [writeBinaryObjectsList, writeBinaryObjectsVector, foldl_write_eq]

/-! ## C3 — node transform-change propagation -/

/-- C3: firing the node's transform-change notification sets exactly
the dirty bits for view, viewProjection, inverseView,
inverseViewProjection and frustum, and leaves the projection dirty bit,
the cached projection matrix, and every other field of the camera
untouched. -/
theorem transformChanged_invalidates_view_family (c : Camera) :
    (transformChanged c).dirtyBits.view = true ∧
      (transformChanged c).dirtyBits.viewProjection = true ∧
      (transformChanged c).dirtyBits.inverseView = true ∧
      (transformChanged c).dirtyBits.inverseViewProjection = true ∧
      (transformChanged c).dirtyBits.frustum = true ∧
      (transformChanged c).dirtyBits.projection = c.dirtyBits.projection ∧
      (transformChanged c).projection = c.projection ∧
      transformChanged c =
        { c with dirtyBits := (transformChanged c).dirtyBits } := by
  refine ⟨rfl, rfl, rfl, rfl, rfl, rfl, rfl, rfl⟩

/-! ## C5 — rejection of invalid parameters -/

/-- C5: a parameter setter invoked with an invalid argument
(`aspectRatio ≤ 0`, a near plane at or beyond the current far plane, a
field of view outside (0, 180) degrees, or a zoom ≤ 0) rejects the
mutation: it returns the error outcome (an `Except` result, not an
exception) and the camera — its stored parameters, cached matrices and
dirty bits — is exactly the input camera. -/
theorem invalid_setters_rejected (c : Camera) (a n fov z : ℚ)
    (ha : a ≤ 0) (hn : c.farPlane ≤ n) (hfov : fov ≤ 0 ∨ 180 ≤ fov) (hz : z ≤ 0) :
    setAspectRatio c a = (.error .invalidParameter, c) ∧
      setNearPlane c n = (.error .invalidParameter, c) ∧
      setFieldOfView c fov = (.error .invalidParameter, c) ∧
      setZoomX c z = (.error .invalidParameter, c) ∧
      setZoomY c z = (.error .invalidParameter, c) := by
  refine ⟨?_, ?_, ?_, ?_, ?_⟩ <;>
    simp [setAspectRatio, setNearPlane, setFieldOfView, setZoomX, setZoomY,
      ha, hn, hfov, hz]

/-- A concrete valid perspective camera used by the witnesses:
`createPerspective(45, 2, 1, 100)` (integer-valued parameters keep the
hypotheses kernel-decidable). -/
def camA : Camera := createPerspective 45 2 1 100

/-- Witness for C5 at the concrete camera `camA` with the concrete
invalid arguments `aspectRatio = 0` and `nearPlane = 100 = farPlane`. -/
theorem invalid_setters_rejected_witness :
    ((0 : ℚ) ≤ 0 ∧ camA.farPlane ≤ 100 ∧ ((0 : ℚ) ≤ 0 ∨ (180 : ℚ) ≤ 0) ∧ (0 : ℚ) ≤ 0) ∧
      (setAspectRatio camA 0 = (.error .invalidParameter, camA) ∧
        setNearPlane camA 100 = (.error .invalidParameter, camA) ∧
        setFieldOfView camA 0 = (.error .invalidParameter, camA) ∧
        setZoomX camA 0 = (.error .invalidParameter, camA) ∧
        setZoomY camA 0 = (.error .invalidParameter, camA)) :=
  ⟨⟨le_refl 0, by decide, Or.inl (le_refl 0), le_refl 0⟩,
    invalid_setters_rejected camA 0 100 0 0 (le_refl 0) (by decide)
      (Or.inl (le_refl 0)) (le_refl 0)⟩

/-! ## More bit bookkeeping for the remaining accessors -/

/-- After step 4 the inverse-view bit is clear. -/
theorem refreshInvViewStep_bit (cc : CamK) :
    (refreshInvViewStep cc).1.dirtyBits.inverseView = false := by
  by_cases h : cc.1.dirtyBits.inverseView <;> simp [refreshInvViewStep, h]

/-- Step 4 does not touch the view bit. -/
theorem refreshInvViewStep_view_bit (cc : CamK) :
    (refreshInvViewStep cc).1.dirtyBits.view = cc.1.dirtyBits.view := by
  by_cases h : cc.1.dirtyBits.inverseView <;> simp [refreshInvViewStep, h]

/-- After step 5 the inverse-view-projection bit is clear. -/
theorem refreshInvVPStep_bit (cc : CamK) :
    (refreshInvVPStep cc).1.dirtyBits.inverseViewProjection = false := by
  by_cases h : cc.1.dirtyBits.inverseViewProjection <;> simp [refreshInvVPStep, h]

/-- Step 5 does not touch the view bit. -/
theorem refreshInvVPStep_view_bit (cc : CamK) :
    (refreshInvVPStep cc).1.dirtyBits.view = cc.1.dirtyBits.view := by
  by_cases h : cc.1.dirtyBits.inverseViewProjection <;> simp [refreshInvVPStep, h]

/-- Step 5 does not touch the projection bit. -/
theorem refreshInvVPStep_projection_bit (cc : CamK) :
    (refreshInvVPStep cc).1.dirtyBits.projection = cc.1.dirtyBits.projection := by
  by_cases h : cc.1.dirtyBits.inverseViewProjection <;> simp [refreshInvVPStep, h]

/-- Step 5 does not touch the view-projection bit. -/
theorem refreshInvVPStep_vp_bit (cc : CamK) :
    (refreshInvVPStep cc).1.dirtyBits.viewProjection = cc.1.dirtyBits.viewProjection := by
  by_cases h : cc.1.dirtyBits.inverseViewProjection <;> simp [refreshInvVPStep, h]

/-- After the frustum refresh the view, projection, view-projection and
frustum bits are all clear. -/
theorem refreshFrustum_bits (tanq sqrtq : ℚ → ℚ) (cc : CamK) :
    (refreshFrustum tanq sqrtq cc).1.dirtyBits.view = false ∧
      (refreshFrustum tanq sqrtq cc).1.dirtyBits.projection = false ∧
      (refreshFrustum tanq sqrtq cc).1.dirtyBits.viewProjection = false ∧
      (refreshFrustum tanq sqrtq cc).1.dirtyBits.frustum = false := by
  obtain ⟨h1, h2, h3⟩ := refreshViewProjection_bits tanq cc
  by_cases h : (refreshViewProjection tanq cc).1.dirtyBits.frustum <;>
    simp [refreshFrustum, h, h1, h2, h3]

/-- A frustum refresh on a state with the view, projection,
view-projection and frustum bits clear is a no-op. -/
theorem refreshFrustum_clean (tanq sqrtq : ℚ → ℚ) (cc : CamK)
    (h1 : cc.1.dirtyBits.view = false) (h2 : cc.1.dirtyBits.projection = false)
    (h3 : cc.1.dirtyBits.viewProjection = false)
    (h4 : cc.1.dirtyBits.frustum = false) :
    refreshFrustum tanq sqrtq cc = cc := by
  simp [refreshFrustum, refreshViewProjection_clean tanq cc h1 h2 h3, h4]

/-! ## C2 — idempotent caching -/

/-- C2: for each of the six matrix/frustum accessors, a second
consecutive call with no intervening mutation returns the identical
(bit-identical — the model is exact) value and leaves the camera state
and every injected recompute counter unchanged: the second call finds
the corresponding dirty bit cleared by the first call and recomputes
nothing. -/
theorem accessors_idempotent_no_recompute (tanq sqrtq : ℚ → ℚ) (cc : CamK) :
    getViewMatrix (getViewMatrix cc).2 =
        ((getViewMatrix cc).1, (getViewMatrix cc).2) ∧
      getProjectionMatrix tanq (getProjectionMatrix tanq cc).2 =
        ((getProjectionMatrix tanq cc).1, (getProjectionMatrix tanq cc).2) ∧
      getViewProjectionMatrix tanq (getViewProjectionMatrix tanq cc).2 =
        ((getViewProjectionMatrix tanq cc).1, (getViewProjectionMatrix tanq cc).2) ∧
      getInverseViewMatrix (getInverseViewMatrix cc).2 =
        ((getInverseViewMatrix cc).1, (getInverseViewMatrix cc).2) ∧
      getInverseViewProjectionMatrix tanq (getInverseViewProjectionMatrix tanq cc).2 =
        ((getInverseViewProjectionMatrix tanq cc).1,
          (getInverseViewProjectionMatrix tanq cc).2) ∧
      getFrustum tanq sqrtq (getFrustum tanq sqrtq cc).2 =
        ((getFrustum tanq sqrtq cc).1, (getFrustum tanq sqrtq cc).2) := by
  refine ⟨?_, ?_, ?_, ?_, ?_, ?_⟩
  · simp [getViewMatrix, refreshView_clean _ (refreshView_bit cc)]
  · simp [getProjectionMatrix, refreshProjection_clean tanq _ (refreshProjection_bit tanq cc)]
  · simp [getViewProjectionMatrix, refreshViewProjection_idem]
  · have hv : (refreshInvViewStep (refreshView cc)).1.dirtyBits.view = false := by
      rw [refreshInvViewStep_view_bit, refreshView_bit]
    simp [getInverseViewMatrix, refreshView_clean _ hv,
      refreshInvViewStep_clean _ (refreshInvViewStep_bit (refreshView cc))]
  · have h1 : (refreshInvVPStep (refreshViewProjection tanq cc)).1.dirtyBits.view = false := by
      rw [refreshInvVPStep_view_bit]
      exact (refreshViewProjection_bits tanq cc).1
    have h2 : (refreshInvVPStep (refreshViewProjection tanq cc)).1.dirtyBits.projection = false := by
      rw [refreshInvVPStep_projection_bit]
      exact (refreshViewProjection_bits tanq cc).2.1
    have h3 : (refreshInvVPStep (refreshViewProjection tanq cc)).1.dirtyBits.viewProjection = false := by
      rw [refreshInvVPStep_vp_bit]
      exact (refreshViewProjection_bits tanq cc).2.2
    simp [getInverseViewProjectionMatrix, refreshViewProjection_clean tanq _ h1 h2 h3,
      refreshInvVPStep_clean _ (refreshInvVPStep_bit (refreshViewProjection tanq cc))]
  · obtain ⟨h1, h2, h3, h4⟩ := refreshFrustum_bits tanq sqrtq cc
    simp [getFrustum, refreshFrustum_clean tanq sqrtq _ h1 h2 h3 h4]

/-! ## C4 — selective invalidation by the projection-parameter setters -/

/-- C4: each projection-parameter setter, on a valid argument, stores
the argument and sets the dirty bits for projection, viewProjection,
inverseViewProjection and frustum while leaving the view and
inverseView dirty bits untouched; consequently, with the view cache
current, `setAspectRatio` followed by `getViewMatrix` performs no view
recomputation (all counters stay put), while `getProjectionMatrix`
after `setAspectRatio` does recompute (its counter increments). -/
theorem projection_setters_selective_invalidation (tanq : ℚ → ℚ) (c : Camera)
    (k : Counts) (fov zx zy a n f : ℚ)
    (hfov1 : 0 < fov) (hfov2 : fov < 180) (hzx : 0 < zx) (hzy : 0 < zy)
    (ha : 0 < a) (hn1 : 0 < n) (hn2 : n < c.farPlane) (hf : c.nearPlane < f)
    (hview : c.dirtyBits.view = false) :
    setFieldOfView c fov =
        (.ok (), { c with fieldOfView := fov, dirtyBits := setProjectionDirty c.dirtyBits }) ∧
      setZoomX c zx =
        (.ok (), { c with zoomX := zx, dirtyBits := setProjectionDirty c.dirtyBits }) ∧
      setZoomY c zy =
        (.ok (), { c with zoomY := zy, dirtyBits := setProjectionDirty c.dirtyBits }) ∧
      setAspectRatio c a =
        (.ok (), { c with aspectRatio := a, dirtyBits := setProjectionDirty c.dirtyBits }) ∧
      setNearPlane c n =
        (.ok (), { c with nearPlane := n, dirtyBits := setProjectionDirty c.dirtyBits }) ∧
      setFarPlane c f =
        (.ok (), { c with farPlane := f, dirtyBits := setProjectionDirty c.dirtyBits }) ∧
      (setProjectionDirty c.dirtyBits).view = c.dirtyBits.view ∧
      (setProjectionDirty c.dirtyBits).inverseView = c.dirtyBits.inverseView ∧
      (setProjectionDirty c.dirtyBits).projection = true ∧
      (setProjectionDirty c.dirtyBits).viewProjection = true ∧
      (setProjectionDirty c.dirtyBits).inverseViewProjection = true ∧
      (setProjectionDirty c.dirtyBits).frustum = true ∧
      (getViewMatrix ((setAspectRatio c a).2, k)).2.2 = k ∧
      (getProjectionMatrix tanq ((setAspectRatio c a).2, k)).2.2.projection =
        k.projection + 1 := by
  have hfovc : ¬(fov ≤ 0 ∨ 180 ≤ fov) := by
    push_neg
    exact ⟨hfov1, hfov2⟩
  have hnc : ¬(n ≤ 0 ∨ c.farPlane ≤ n) := by
    push_neg
    exact ⟨hn1, hn2⟩
  have haset : (setAspectRatio c a).2 =
      { c with aspectRatio := a, dirtyBits := setProjectionDirty c.dirtyBits } := by
    simp [setAspectRatio, not_le.mpr ha]
  refine ⟨?_, ?_, ?_, ?_, ?_, ?_, rfl, rfl, rfl, rfl, rfl, rfl, ?_, ?_⟩
  · simp [setFieldOfView, hfovc]
  · simp [setZoomX, not_le.mpr hzx]
  · simp [setZoomY, not_le.mpr hzy]
  · simp [setAspectRatio, not_le.mpr ha]
  · simp [setNearPlane, hnc]
  · simp [setFarPlane, not_le.mpr hf]
  · rw [haset]
    simp only [getViewMatrix]
    rw [refreshView_clean _ hview]
  · rw [haset]
    simp [getProjectionMatrix, refreshProjection, setProjectionDirty]

/-- The camera `camA` after a first `getViewMatrix` call: its view bit
is clear and its view cache current. -/
def camAr : Camera := (getViewMatrix (camA, Counts.zero)).2.1

/-- The recompute counters of `camA` after that first `getViewMatrix`
call. -/
def kAr : Counts := (getViewMatrix (camA, Counts.zero)).2.2

/-- Witness for C4 at the concrete camera `camAr` (whose view bit was
cleared by a prior `getViewMatrix`), with concrete valid arguments. -/
theorem projection_setters_selective_invalidation_witness :
    ((0 : ℚ) < 60 ∧ (60 : ℚ) < 180 ∧ (0 : ℚ) < 2 ∧ (0 : ℚ) < 3 ∧ (0 : ℚ) < 2 ∧
        (0 : ℚ) < 5 ∧ (5 : ℚ) < camAr.farPlane ∧ camAr.nearPlane < 400 ∧
        camAr.dirtyBits.view = false) ∧
      (getProjectionMatrix (fun _ => 1)
          ((setAspectRatio camAr 2).2, kAr)).2.2.projection = kAr.projection + 1 :=
  ⟨⟨by decide, by decide, by decide, by decide, by decide, by decide, by decide,
      by decide, by decide⟩,
    (projection_setters_selective_invalidation (fun _ => 1) camAr kAr
      60 2 3 2 5 400 (by decide) (by decide) (by decide) (by decide) (by decide)
      (by decide) (by decide) (by decide)
      (by decide)).2.2.2.2.2.2.2.2.2.2.2.2.2⟩

/-! ## C6 — the view matrix inverts the node's world transform -/

/-- C6: the view matrix returned by `getViewMatrix` is the inverse of
the attached node's current world transform (two-sided, whenever that
transform is invertible), and is the identity matrix when the camera is
not attached to a node.  The hypothesis is the view clause of the cache
coherence invariant (spec section 3): a clear view bit means the cached
view is current; it holds vacuously when the view bit is dirty. -/
theorem view_matrix_inverts_node_transform (c : Camera) (k : Counts) (W : Mat4)
    (hcur : c.dirtyBits.view = false → c.view = viewOfNode c.node) :
    (c.node = none → (getViewMatrix (c, k)).1 = 1) ∧
      (c.node = some W → W.det ≠ 0 →
        (getViewMatrix (c, k)).1 * W = 1 ∧ W * (getViewMatrix (c, k)).1 = 1) := by
  have hval : (getViewMatrix (c, k)).1 = viewOfNode c.node := by
    by_cases h : c.dirtyBits.view
    · simp [getViewMatrix, refreshView, h]
    · have hb : c.dirtyBits.view = false := by simpa using h
      simp only [getViewMatrix]
      rw [refreshView_clean (c, k) hb]
      exact hcur hb
  refine ⟨fun hn => ?_, fun hn hdet => ?_⟩
  · rw [hval, hn, viewOfNode]
  · rw [hval, hn]
    show invertOrIdentity W * W = 1 ∧ W * invertOrIdentity W = 1
    exact invertOrIdentity_mul W hdet

/-- Witness for C6 at the concrete camera `camA` attached to a node
with the identity world transform. -/
theorem view_matrix_inverts_node_transform_witness :
    ((setNode camA (some 1)).dirtyBits.view = false →
        (setNode camA (some 1)).view = viewOfNode (setNode camA (some 1)).node) ∧
      (((setNode camA (some 1)).node = none →
          (getViewMatrix (setNode camA (some 1), Counts.zero)).1 = 1) ∧
        ((setNode camA (some 1)).node = some 1 → (1 : Mat4).det ≠ 0 →
          (getViewMatrix (setNode camA (some 1), Counts.zero)).1 * 1 = 1 ∧
            1 * (getViewMatrix (setNode camA (some 1), Counts.zero)).1 = 1)) :=
  ⟨by decide, view_matrix_inverts_node_transform (setNode camA (some 1))
    Counts.zero 1 (by decide)⟩

/-- Step 1 does not touch the view-projection bit. -/
theorem refreshView_vp_bit (cc : CamK) :
    (refreshView cc).1.dirtyBits.viewProjection = cc.1.dirtyBits.viewProjection := by
  by_cases h : cc.1.dirtyBits.view <;> simp [refreshView, h]

/-- Step 2 does not touch the view-projection bit. -/
theorem refreshProjection_vp_bit (tanq : ℚ → ℚ) (cc : CamK) :
    (refreshProjection tanq cc).1.dirtyBits.viewProjection =
      cc.1.dirtyBits.viewProjection := by
  by_cases h : cc.1.dirtyBits.projection <;> simp [refreshProjection, h]

/-! ## C1 — the composition law -/

/-- C1: for every camera in a valid parameter state (and with coherent
caches, the invariant of spec section 3 that every reachable state
satisfies), the matrix returned by `getViewProjectionMatrix` equals the
product of the result of `getProjectionMatrix` and the result of
`getViewMatrix`, in that order.  The model is exact over `ℚ`, so the
equality holds exactly and hence within every positive tolerance. -/
theorem viewProjection_eq_projection_mul_view (tanq sqrtq : ℚ → ℚ) (cc : CamK)
    (_hvalid : ValidParams cc.1) (hcoh : CacheCoherent tanq sqrtq cc.1) :
    (getViewProjectionMatrix tanq cc).1 =
      (getProjectionMatrix tanq (getViewProjectionMatrix tanq cc).2).1 *
        (getViewMatrix (getViewProjectionMatrix tanq cc).2).1 := by
  obtain ⟨hv, hp, hvp, _, _, _⟩ := hcoh
  obtain ⟨b1, b2, b3⟩ := refreshViewProjection_bits tanq cc
  simp only [getViewProjectionMatrix, getProjectionMatrix, getViewMatrix]
  rw [refreshProjection_clean tanq _ b2, refreshView_clean _ b1]
  by_cases h3 : cc.1.dirtyBits.viewProjection
  · have hb : (refreshProjection tanq (refreshView cc)).1.dirtyBits.viewProjection
        = true := by
      rw [refreshProjection_vp_bit, refreshView_vp_bit]
      exact h3
    simp [refreshViewProjection, refreshVPStep, hb]
  · have hb : cc.1.dirtyBits.viewProjection = false := by simpa using h3
    obtain ⟨hbv, hbp, heq⟩ := hvp hb
    rw [refreshViewProjection_clean tanq _ hbv hbp hb]
    exact heq

/-- Witness for C1 at the concrete all-dirty camera `camA` (its cache
coherence holds vacuously) with concrete tangent and square-root
routines. -/
theorem viewProjection_eq_projection_mul_view_witness :
    (ValidParams camA ∧ CacheCoherent (fun _ => 1) (fun _ => 1) camA) ∧
      (getViewProjectionMatrix (fun _ => 1) (camA, Counts.zero)).1 =
        (getProjectionMatrix (fun _ => 1)
            (getViewProjectionMatrix (fun _ => 1) (camA, Counts.zero)).2).1 *
          (getViewMatrix
            (getViewProjectionMatrix (fun _ => 1) (camA, Counts.zero)).2).1 :=
  ⟨⟨by decide, by decide⟩,
    viewProjection_eq_projection_mul_view (fun _ => 1) (fun _ => 1)
      (camA, Counts.zero) (by decide) (by decide)⟩

/-! ## The perspective matrix is invertible -/

/-- The closed-form inverse of the perspective projection matrix, used
only in proofs. -/
def perspInv (f aspect near far : ℚ) : Mat4 :=
  Matrix.of
    ![![aspect / f, 0, 0, 0],
      ![0, 1 / f, 0, 0],
      ![0, 0, 0, -1],
      ![0, 0, (near - far) / (2 * far * near), (far + near) / (2 * far * near)]]

/-- The identity written out entrywise, for evaluating matrix
products. -/
theorem one_mat4 : (1 : Mat4) =
    Matrix.of ![![1, 0, 0, 0], ![0, 1, 0, 0], ![0, 0, 1, 0], ![0, 0, 0, 1]] := by
  ext i j
  fin_cases i <;> fin_cases j <;> rfl

/-- `perspInv` is a two-sided inverse of `perspM` whenever the focal
scale, the aspect ratio and the planes are nondegenerate. -/
theorem perspM_mul_perspInv (f a n fr : ℚ) (hf : f ≠ 0) (ha : a ≠ 0)
    (hn : n ≠ 0) (hfr : fr ≠ 0) (hnfr : n ≠ fr) :
    perspM f a n fr * perspInv f a n fr = 1 ∧
      perspInv f a n fr * perspM f a n fr = 1 := by
  have hsub : n - fr ≠ 0 := sub_ne_zero.mpr hnfr
  constructor <;>
    · rw [one_mat4]
      ext i j
      fin_cases i <;> fin_cases j <;>
        · simp only [perspM, perspInv, Matrix.mul_apply, Fin.sum_univ_four,
            Matrix.of_apply, Matrix.cons_val_zero, Matrix.cons_val_one,
            Matrix.cons_val_two, Matrix.cons_val_three, Matrix.head_cons,
            Matrix.tail_cons]
          first
          | rfl
          | (field_simp
             try ring)

/-- The w-component produced by the perspective matrix on a homogeneous
world point is the negated view-space depth `-p.z`. -/
theorem perspM_mulVec_w (f a n fr : ℚ) (p : Vec3) :
    (perspM f a n fr).mulVec (homog p) 3 = -p.z := by
  simp [perspM, homog, Matrix.mulVec, Matrix.dotProduct, Fin.sum_univ_four]

/-! ## The pure round trip of the coordinate mapping -/

/-- Projecting through `M` and unprojecting through a left inverse of
`M` recovers the world point, provided the projective w-component does
not vanish and the viewport is nondegenerate. -/
theorem roundtrip_point (M N : Mat4) (vp : Viewport) (p : Vec3)
    (hNM : N * M = 1) (hw : M.mulVec (homog p) 3 ≠ 0)
    (hvw : vp.width ≠ 0) (hvh : vp.height ≠ 0) :
    unprojectPoint N vp (projectPoint M vp p).1 (projectPoint M vp p).2.1
      (projectPoint M vp p).2.2 = p := by
  set q := M.mulVec (homog p) with hq
  have hx : 2 * (vp.x + (q 0 / q 3 + 1) / 2 * vp.width - vp.x) / vp.width - 1
      = q 0 / q 3 := by
    field_simp
    ring
  have hy : 1 - 2 * (vp.y + (1 - (q 1 / q 3 + 1) / 2) * vp.height - vp.y) / vp.height
      = q 1 / q 3 := by
    field_simp
    ring
  have hz : 2 * ((q 2 / q 3 + 1) / 2) - 1 = q 2 / q 3 := by
    ring
  have hclip : (![q 0 / q 3, q 1 / q 3, q 2 / q 3, 1] : Vec4) = (q 3)⁻¹ • q := by
    funext i
    fin_cases i <;>
      simp [Pi.smul_apply, smul_eq_mul, div_eq_inv_mul, inv_mul_cancel₀ hw]
  have hkey : N.mulVec ((q 3)⁻¹ • q) = (q 3)⁻¹ • homog p := by
    rw [Matrix.mulVec_smul, hq, Matrix.mulVec_mulVec, hNM, Matrix.one_mulVec]
  obtain ⟨px, py, pz⟩ := p
  simp only [projectPoint, unprojectPoint]
  rw [hx, hy, hz, hclip, hkey]
  have hinv : (q 3)⁻¹ ≠ 0 := inv_ne_zero hw
  simp [homog, Pi.smul_apply, smul_eq_mul]
  refine ⟨?_, ?_, ?_⟩ <;> field_simp

/-- Step 1 does not touch the inverse-view-projection bit. -/
theorem refreshView_invvp_bit (cc : CamK) :
    (refreshView cc).1.dirtyBits.inverseViewProjection =
      cc.1.dirtyBits.inverseViewProjection := by
  by_cases h : cc.1.dirtyBits.view <;> simp [refreshView, h]

/-- Step 2 does not touch the inverse-view-projection bit. -/
theorem refreshProjection_invvp_bit (tanq : ℚ → ℚ) (cc : CamK) :
    (refreshProjection tanq cc).1.dirtyBits.inverseViewProjection =
      cc.1.dirtyBits.inverseViewProjection := by
  by_cases h : cc.1.dirtyBits.projection <;> simp [refreshProjection, h]

/-- Step 3 does not touch the inverse-view-projection bit. -/
theorem refreshVPStep_invvp_bit (cc : CamK) :
    (refreshVPStep cc).1.dirtyBits.inverseViewProjection =
      cc.1.dirtyBits.inverseViewProjection := by
  by_cases h : cc.1.dirtyBits.viewProjection <;> simp [refreshVPStep, h]

/-! ## C7 — the projection round trip -/

/-- The 800x600 viewport of the round-trip property. -/
def vp800 : Viewport := ⟨0, 0, 800, 600⟩

/-- C7: for a perspective camera with valid parameters, an identity
node transform, and the 800x600 viewport, composing `project` then
`unproject` is the identity on world points whose view-space depth lies
strictly between the near and far planes.  The model is exact over
`ℚ`, so the recovery is exact, hence within every positive tolerance;
the claim's concrete parameters (near 1, far 100, field of view 45
degrees, aspect 4/3) are an instance of the hypotheses, for the
mathematical tangent routine. -/
theorem project_unproject_roundtrip (tanq : ℚ → ℚ) (fov aspect near far : ℚ)
    (p : Vec3) (k : Counts)
    (ha : 0 < aspect) (hn : 0 < near) (hnf : near < far)
    (ht : tanq (fov / 2) ≠ 0) (hd1 : near < -p.z) (_hd2 : -p.z < far) :
    (unproject tanq vp800
        (project tanq vp800
          (setNode (createPerspective fov aspect near far) (some 1), k) p).2
        (project tanq vp800
          (setNode (createPerspective fov aspect near far) (some 1), k) p).1.1
        (project tanq vp800
          (setNode (createPerspective fov aspect near far) (some 1), k) p).1.2.1
        (project tanq vp800
          (setNode (createPerspective fov aspect near far) (some 1), k) p).1.2.2).1
      = p := by
  set cc0 : CamK := (setNode (createPerspective fov aspect near far) (some 1), k)
    with hcc0
  set f := 1 / tanq (fov / 2) with hfdef
  have hf : f ≠ 0 := one_div_ne_zero ht
  have hfr0 : (0 : ℚ) < far := lt_trans hn hnf
  have hvp : (refreshViewProjection tanq cc0).1.viewProjection =
      perspM f aspect near far := by
    simp [hcc0, hfdef, refreshViewProjection, refreshView, refreshProjection,
      refreshVPStep, setNode, createPerspective, DirtyBits.all,
      projectionOfParams, viewOfNode, invertOrIdentity_one]
  have hbit : (refreshViewProjection tanq cc0).1.dirtyBits.inverseViewProjection
      = true := by
    simp only [refreshViewProjection]
    rw [refreshVPStep_invvp_bit, refreshProjection_invvp_bit, refreshView_invvp_bit,
      hcc0]
    rfl
  have hPQ := perspM_mul_perspInv f aspect near far hf (ne_of_gt ha) (ne_of_gt hn)
    (ne_of_gt hfr0) (ne_of_lt hnf)
  have hioi : invertOrIdentity (perspM f aspect near far) =
      perspInv f aspect near far :=
    invertOrIdentity_eq_of_mul_eq_one _ _ hPQ.1
  have hw : (perspM f aspect near far).mulVec (homog p) 3 ≠ 0 := by
    rw [perspM_mulVec_w]
    exact ne_of_gt (lt_trans hn hd1)
  have hmi : (refreshInvVPStep (refreshViewProjection tanq cc0)).1.inverseViewProjection
      = invertOrIdentity ((refreshViewProjection tanq cc0).1.viewProjection) := by
    simp [refreshInvVPStep, hbit]
  simp only [project, unproject]
  rw [refreshViewProjection_idem, hmi, hvp, hioi]
  exact roundtrip_point _ _ vp800 p hPQ.2 hw (by norm_num [vp800])
    (by norm_num [vp800])

/-- The concrete camera of the round-trip witness: perspective, valid
parameters, attached to a node with the identity world transform. -/
def ccC7 : CamK := (setNode (createPerspective 45 2 1 100) (some 1), Counts.zero)

/-- The concrete world point of the round-trip witness, at view-space
depth 10 strictly between the near plane 1 and the far plane 100. -/
def pC7 : Vec3 := ⟨0, 0, -10⟩

/-- The projection of `pC7` through the witness camera. -/
def prC7 : (ℚ × ℚ × ℚ) × CamK := project (fun _ => 1) vp800 ccC7 pC7

/-- Witness for C7 at the concrete camera `ccC7` and world point
`pC7`. -/
theorem project_unproject_roundtrip_witness :
    ((0 : ℚ) < 2 ∧ (0 : ℚ) < 1 ∧ (1 : ℚ) < 100 ∧
        (fun _ : ℚ => (1 : ℚ)) (45 / 2) ≠ 0 ∧ (1 : ℚ) < -pC7.z ∧ -pC7.z < 100) ∧
      (unproject (fun _ => 1) vp800 prC7.2 prC7.1.1 prC7.1.2.1 prC7.1.2.2).1 = pC7 :=
  ⟨⟨by decide, by decide, by decide, by decide, by decide, by decide⟩,
    project_unproject_roundtrip (fun _ => 1) 45 2 1 100 pC7 Counts.zero
      (by decide) (by decide) (by decide) (by decide) (by decide) (by decide)⟩

/-! ## C8 — pick-ray construction -/

/-- C8: for every camera, viewport and pixel coordinates, `pickRay`
produces a ray whose origin is the unprojection of the pixel at depth 0
and whose direction is the normalized difference between the
unprojections at depth 1 and depth 0. -/
theorem pickRay_from_unproject (tanq sqrtq : ℚ → ℚ) (vp : Viewport) (cc : CamK)
    (x y : ℚ) :
    (pickRay tanq sqrtq vp cc x y).1.origin = (unproject tanq vp cc x y 0).1 ∧
      (pickRay tanq sqrtq vp cc x y).1.direction =
        Vec3.normalizeWith sqrtq
          (Vec3.sub (unproject tanq vp cc x y 1).1 (unproject tanq vp cc x y 0).1) := by
  have h1 : (refreshInvVPStep (refreshViewProjection tanq cc)).1.dirtyBits.view
      = false := by
    rw [refreshInvVPStep_view_bit]
    exact (refreshViewProjection_bits tanq cc).1
  have h2 : (refreshInvVPStep (refreshViewProjection tanq cc)).1.dirtyBits.projection
      = false := by
    rw [refreshInvVPStep_projection_bit]
    exact (refreshViewProjection_bits tanq cc).2.1
  have h3 : (refreshInvVPStep (refreshViewProjection tanq cc)).1.dirtyBits.viewProjection
      = false := by
    rw [refreshInvVPStep_vp_bit]
    exact (refreshViewProjection_bits tanq cc).2.2
  have hclean :
      refreshViewProjection tanq (refreshInvVPStep (refreshViewProjection tanq cc))
        = refreshInvVPStep (refreshViewProjection tanq cc) :=
    refreshViewProjection_clean tanq _ h1 h2 h3
  have hstep :
      refreshInvVPStep (refreshInvVPStep (refreshViewProjection tanq cc))
        = refreshInvVPStep (refreshViewProjection tanq cc) :=
    refreshInvVPStep_clean _ (refreshInvVPStep_bit _)
  constructor
  · rfl
  · simp only [pickRay, unproject]
    rw [hclean, hstep]

/-! ## C9 — singular-matrix fallback -/

/-- C9 (amended): when the refreshed view-projection matrix is not
invertible and its inverse cache is due for recomputation, the
inversion performed by `getInverseViewProjectionMatrix` yields the
identity matrix (exact rationals — no NaN/Inf entries can arise), the
cache entry is marked valid (its dirty bit clears) and its recompute
counter advances; nothing else in the camera changes, and since the
`Camera` state carries exactly the fields declared in `Camera.h` lines
262-275, no degraded flag records the fallback. -/
theorem singular_inversion_identity_fallback (tanq : ℚ → ℚ) (cc : CamK)
    (hbit : (refreshViewProjection tanq cc).1.dirtyBits.inverseViewProjection = true)
    (hdet : ((refreshViewProjection tanq cc).1.viewProjection).det = 0) :
    (getInverseViewProjectionMatrix tanq cc).1 = 1 ∧
      (getInverseViewProjectionMatrix tanq cc).2.1 =
        { (refreshViewProjection tanq cc).1 with
            inverseViewProjection := 1
            dirtyBits := { (refreshViewProjection tanq cc).1.dirtyBits with
              inverseViewProjection := false } } ∧
      (getInverseViewProjectionMatrix tanq cc).2.2 =
        { (refreshViewProjection tanq cc).2 with
            inverseViewProjection :=
              (refreshViewProjection tanq cc).2.inverseViewProjection + 1 } := by
  have hio : invertOrIdentity ((refreshViewProjection tanq cc).1.viewProjection)
      = 1 := by
    simp [invertOrIdentity, hdet]
  refine ⟨?_, ?_, ?_⟩ <;>
    simp [getInverseViewProjectionMatrix, refreshInvVPStep, hbit, hio]

/-- The concrete camera of the degraded-inversion run: a perspective
camera whose tangent routine returns 0 (so the focal scale `1/0`
collapses to 0 and the projection, hence the view-projection, matrix is
singular). -/
def camC9 : Camera := createPerspective 45 1 1 2

/-- The refreshed view-projection matrix of the degraded run is
singular. -/
theorem camC9_vp_det_zero :
    ((refreshViewProjection (fun _ => 0) (camC9, Counts.zero)).1.viewProjection).det
      = 0 := by
  have hvp : (refreshViewProjection (fun _ => 0) (camC9, Counts.zero)).1.viewProjection
      = perspM 0 1 1 2 := by
    simp [camC9, refreshViewProjection, refreshView, refreshProjection, refreshVPStep,
      createPerspective, DirtyBits.all, projectionOfParams, viewOfNode]
  rw [hvp]
  apply Matrix.det_eq_zero_of_row_eq_zero 0
  intro j
  fin_cases j <;> simp [perspM]

/-- Witness for the amended C9 at the concrete degraded run. -/
theorem singular_inversion_identity_fallback_witness :
    ((refreshViewProjection (fun _ => 0) (camC9, Counts.zero)).1.dirtyBits.inverseViewProjection
          = true ∧
        ((refreshViewProjection (fun _ => 0) (camC9, Counts.zero)).1.viewProjection).det
          = 0) ∧
      (getInverseViewProjectionMatrix (fun _ => 0) (camC9, Counts.zero)).1 = 1 :=
  ⟨⟨by decide, camC9_vp_det_zero⟩,
    (singular_inversion_identity_fallback (fun _ => 0) (camC9, Counts.zero)
      (by decide) camC9_vp_det_zero).1⟩

/-- The concrete camera of the non-degraded comparison run: attached to
a node whose world transform is the perspective matrix itself, so that
the refreshed view-projection matrix is exactly the identity and its
true inverse is the identity. -/
def camD : Camera := setNode (createPerspective 45 1 1 2) (some (perspM 1 1 1 2))

/-- C9 counterexample: the claim's degraded flag does not exist.  A
degraded refresh (singular view-projection, identity fallback) and a
genuinely non-degraded refresh (view-projection equal to the identity,
whose true inverse is the identity) return the same matrix, leave the
same inverse cache and the same dirty-bit mask; the `Camera` state —
exactly the fields of `Camera.h` lines 262-275 — stores no flag
distinguishing them, so calling code cannot detect from the camera that
the cached inverse is the fallback rather than a true inverse. -/
theorem no_degraded_flag_counterexample :
    ((refreshViewProjection (fun _ => 0) (camC9, Counts.zero)).1.viewProjection).det
        = 0 ∧
      ((refreshViewProjection (fun _ => 1) (camD, Counts.zero)).1.viewProjection).det
        ≠ 0 ∧
      (getInverseViewProjectionMatrix (fun _ => 0) (camC9, Counts.zero)).1 =
        (getInverseViewProjectionMatrix (fun _ => 1) (camD, Counts.zero)).1 ∧
      (getInverseViewProjectionMatrix (fun _ => 0)
            (camC9, Counts.zero)).2.1.inverseViewProjection =
        (getInverseViewProjectionMatrix (fun _ => 1)
            (camD, Counts.zero)).2.1.inverseViewProjection ∧
      (getInverseViewProjectionMatrix (fun _ => 0) (camC9, Counts.zero)).2.1.dirtyBits =
        (getInverseViewProjectionMatrix (fun _ => 1) (camD, Counts.zero)).2.1.dirtyBits := by
  have hPQ := perspM_mul_perspInv 1 1 1 2 (by norm_num) (by norm_num) (by norm_num)
    (by norm_num) (by norm_num)
  have hview : invertOrIdentity (perspM 1 1 1 2) = perspInv 1 1 1 2 :=
    invertOrIdentity_eq_of_mul_eq_one _ _ hPQ.1
  have hvp2 : (refreshViewProjection (fun _ => 1) (camD, Counts.zero)).1.viewProjection
      = 1 := by
    simp [camD, refreshViewProjection, refreshView, refreshProjection, refreshVPStep,
      setNode, createPerspective, DirtyBits.all, projectionOfParams, viewOfNode,
      hview, hPQ.1]
  have hio1 : invertOrIdentity ((refreshViewProjection (fun _ => 0)
      (camC9, Counts.zero)).1.viewProjection) = 1 := by
    simp [invertOrIdentity, camC9_vp_det_zero]
  have hio2 : invertOrIdentity ((refreshViewProjection (fun _ => 1)
      (camD, Counts.zero)).1.viewProjection) = 1 := by
    rw [hvp2, invertOrIdentity_one]
  have hbit1 : (refreshViewProjection (fun _ => 0)
      (camC9, Counts.zero)).1.dirtyBits.inverseViewProjection = true := by decide
  have hbit2 : (refreshViewProjection (fun _ => 1)
      (camD, Counts.zero)).1.dirtyBits.inverseViewProjection = true := by decide
  refine ⟨camC9_vp_det_zero, ?_, ?_, ?_, ?_⟩
  · rw [hvp2, Matrix.det_one]
    exact one_ne_zero
  · simp [getInverseViewProjectionMatrix, refreshInvVPStep, hbit1, hbit2, hio1, hio2]
  · simp [getInverseViewProjectionMatrix, refreshInvVPStep, hbit1, hbit2, hio1, hio2]
  · simp only [getInverseViewProjectionMatrix, refreshInvVPStep, hbit1, hbit2,
      if_true]
    have hb1 : (refreshViewProjection (fun _ => 0) (camC9, Counts.zero)).1.dirtyBits
        = ⟨false, false, false, true, true, true⟩ := by decide
    have hb2 : (refreshViewProjection (fun _ => 1) (camD, Counts.zero)).1.dirtyBits
        = ⟨false, false, false, true, true, true⟩ := by decide
    simp [hb1, hb2]

end GamePlaySpec
